import Mathlib

/-!
Verification development for the cris-network-tool repository: a shallow
embedding of the paginated publication fetcher, the record normalizer and the
co-authorship graph builder, together with theorems settling the
specification claims about them.

Conventions of the embedding:
* CSV cells are modeled as strings; a table row is projected to the columns
  the modeled function actually reads.
* Python string operations used by the source, namely split on a semicolon
  and strip, are modeled character by character so that all definitions
  reduce by computation.
* Fallible Python code, such as dictionary subscripting and HTTP requests,
  is modeled in the Except monad.
-/

/-- Model of the Python whitespace test used by str.strip for the
characters that can occur in author fields. -/
def isPySpace (c : Char) : Bool :=
  c = ' ' || c = '\t' || c = '\n' || c = '\r'

/-- Model of Python str.strip on a character list: drop whitespace from
both ends. -/
def trimChars (l : List Char) : List Char :=
  ((l.dropWhile isPySpace).reverse.dropWhile isPySpace).reverse

/-- Model of Python str.strip. -/
def pyStrip (s : String) : String :=
  ⟨trimChars s.data⟩

/-- Model of Python str.split with separator a semicolon: splits at every
semicolon, keeping empty segments, and returns one segment for the empty
string. -/
def splitSemi : List Char → List (List Char)
  | [] => [[]]
  | c :: rest =>
    if c = ';' then [] :: splitSemi rest
    else
      match splitSemi rest with
      | [] => [[c]]
      | h :: t => (c :: h) :: t

/-- The author field preprocessing shared by generate_edge_list and
generate_node_list in the source: split the field on semicolons and strip
each piece. In generate_edge_list this is the str.split followed by the
explode and str.strip steps; in generate_node_list it is the split followed
by the per-author strip. -/
def splitAuthors (s : String) : List String :=
  (splitSemi s.data).map (fun cs => ⟨trimChars cs⟩)

/-- Keep-first deduplication, with an accumulator of already seen elements:
the model of pandas drop_duplicates, which keeps the first occurrence. -/
def firstDedupAux [DecidableEq α] (seen : List α) : List α → List α
  | [] => []
  | a :: l => if a ∈ seen then firstDedupAux seen l else a :: firstDedupAux (a :: seen) l

/-- Model of pandas drop_duplicates: keep the first occurrence of each
element. -/
def firstDedup [DecidableEq α] (l : List α) : List α :=
  firstDedupAux [] l

theorem mem_firstDedupAux [DecidableEq α] {x : α} (l : List α) :
    ∀ (seen : List α), x ∈ firstDedupAux seen l ↔ x ∈ l ∧ x ∉ seen := by
  induction l with
  | nil => intro seen; simp [firstDedupAux]
  | cons a l ih =>
    intro seen
    by_cases ha : a ∈ seen
    · rw [show firstDedupAux seen (a :: l) = firstDedupAux seen l from by
        simp [firstDedupAux, ha], ih seen]
      constructor
      · rintro ⟨hx, hs⟩; exact ⟨List.mem_cons_of_mem a hx, hs⟩
      · rintro ⟨hx, hs⟩
        rcases List.mem_cons.mp hx with h | h
        · exact absurd (h ▸ ha) hs
        · exact ⟨h, hs⟩
    · rw [show firstDedupAux seen (a :: l) = a :: firstDedupAux (a :: seen) l from by
        simp [firstDedupAux, ha]]
      constructor
      · intro hx
        rcases List.mem_cons.mp hx with h | h
        · subst h; exact ⟨List.mem_cons_self x l, ha⟩
        · obtain ⟨h1, h2⟩ := (ih (a :: seen)).mp h
          exact ⟨List.mem_cons_of_mem a h1, fun hs => h2 (List.mem_cons_of_mem a hs)⟩
      · rintro ⟨hx, hs⟩
        by_cases hxa : x = a
        · subst hxa; exact List.mem_cons_self x _
        · rcases List.mem_cons.mp hx with h | h
          · exact absurd h hxa
          · exact List.mem_cons_of_mem a ((ih (a :: seen)).mpr ⟨h, fun hm => by
              rcases List.mem_cons.mp hm with h2 | h2
              · exact hxa h2
              · exact hs h2⟩)

theorem mem_firstDedup [DecidableEq α] {x : α} {l : List α} :
    x ∈ firstDedup l ↔ x ∈ l := by
  rw [firstDedup, mem_firstDedupAux l []]
  simp

theorem nodup_firstDedupAux [DecidableEq α] (l : List α) :
    ∀ (seen : List α), (firstDedupAux seen l).Nodup := by
  induction l with
  | nil => intro seen; simp [firstDedupAux]
  | cons a l ih =>
    intro seen
    by_cases ha : a ∈ seen
    · rw [show firstDedupAux seen (a :: l) = firstDedupAux seen l from by
        simp [firstDedupAux, ha]]
      exact ih seen
    · rw [show firstDedupAux seen (a :: l) = a :: firstDedupAux (a :: seen) l from by
        simp [firstDedupAux, ha], List.nodup_cons]
      refine ⟨fun hmem => ?_, ih (a :: seen)⟩
      exact (mem_firstDedupAux l (a :: seen)).mp hmem |>.2 (List.mem_cons_self a seen)

theorem nodup_firstDedup [DecidableEq α] (l : List α) : (firstDedup l).Nodup :=
  nodup_firstDedupAux l []

theorem firstDedup_ne_nil [DecidableEq α] {l : List α} (h : l ≠ []) :
    firstDedup l ≠ [] := by
  intro hd
  match l, h with
  | a :: l, _ =>
    have : a ∈ firstDedup (a :: l) := mem_firstDedup.mpr (List.mem_cons_self a l)
    rw [hd] at this
    exact absurd this (List.not_mem_nil a)

/-- Lexicographic comparison of character lists by code point: the order
Python uses to compare strings and pandas uses for the row-wise min and max
of two string columns. -/
def charListLt : List Char → List Char → Bool
  | _, [] => false
  | [], _ :: _ => true
  | c :: cs, d :: ds =>
    if c < d then true
    else if d < c then false
    else charListLt cs ds

/-- Python string comparison: lexicographic on code points. -/
def pyLt (a b : String) : Bool :=
  charListLt a.data b.data

/-- The lexicographically smaller of two strings: pandas min over a pair of
string columns. -/
def pyMin (a b : String) : String :=
  if pyLt a b then a else b

/-- The lexicographically larger of two strings: pandas max over a pair of
string columns. -/
def pyMax (a b : String) : String :=
  if pyLt a b then b else a

theorem charListLt_irrefl : ∀ l : List Char, charListLt l l = false := by
  intro l
  induction l with
  | nil => rfl
  | cons c cs ih => simp [charListLt, ih]

theorem charListLt_asymm : ∀ a b : List Char,
    charListLt a b = true → charListLt b a = false := by
  intro a
  induction a with
  | nil =>
    intro b _
    cases b with
    | nil => rfl
    | cons d ds => rfl
  | cons c cs ih =>
    intro b hab
    cases b with
    | nil => exact absurd hab (by simp [charListLt])
    | cons d ds =>
      by_cases hcd : c < d
      · have hdc : ¬ d < c := fun h => absurd (hcd.trans h) (lt_irrefl c)
        simp [charListLt, hdc, hcd]
      · by_cases hdc : d < c
        · simp [charListLt, hcd, hdc] at hab
        · simp only [charListLt, if_neg hcd, if_neg hdc] at hab
          simp only [charListLt, if_neg hdc, if_neg hcd]
          exact ih ds hab

theorem charListLt_trichot : ∀ a b : List Char,
    a ≠ b → charListLt a b = true ∨ charListLt b a = true := by
  intro a
  induction a with
  | nil =>
    intro b hb
    cases b with
    | nil => exact absurd rfl hb
    | cons d ds => exact Or.inl rfl
  | cons c cs ih =>
    intro b hb
    cases b with
    | nil => exact Or.inr rfl
    | cons d ds =>
      by_cases hcd : c < d
      · exact Or.inl (by simp [charListLt, hcd])
      · by_cases hdc : d < c
        · exact Or.inr (by simp [charListLt, hdc])
        · have hcdeq : c = d := by
            have h1 : ¬ c.toNat < d.toNat := hcd
            have h2 : ¬ d.toNat < c.toNat := hdc
            exact Char.eq_of_val_eq
              (UInt32.ext (Nat.le_antisymm (Nat.not_lt.mp h2) (Nat.not_lt.mp h1)))
          subst hcdeq
          have htail : cs ≠ ds := fun h => hb (by rw [h])
          rcases ih ds htail with h | h
          · exact Or.inl (by simp [charListLt, lt_irrefl, h])
          · exact Or.inr (by simp [charListLt, lt_irrefl, h])

theorem pyLt_irrefl (a : String) : pyLt a a = false :=
  charListLt_irrefl a.data

theorem pyLt_asymm {a b : String} (h : pyLt a b = true) : pyLt b a = false :=
  charListLt_asymm a.data b.data h

theorem pyLt_trichot {a b : String} (h : a ≠ b) :
    pyLt a b = true ∨ pyLt b a = true := by
  refine charListLt_trichot a.data b.data fun hd => h ?_
  cases a; cases b; exact congrArg String.mk hd

theorem pyMin_ne_pyMax {a b : String} (h : a ≠ b) : pyMin a b ≠ pyMax a b := by
  unfold pyMin pyMax
  by_cases hab : pyLt a b = true
  · simp [hab, h]
  · simp [hab, Ne.symm h]

theorem pyLt_pyMin_pyMax {a b : String} (h : a ≠ b) :
    pyLt (pyMin a b) (pyMax a b) = true := by
  unfold pyMin pyMax
  rcases pyLt_trichot h with hab | hba
  · simp [hab]
  · have : pyLt a b = false := pyLt_asymm hba
    simp [this, hba]

theorem pyMin_comm (a b : String) : pyMin a b = pyMin b a := by
  by_cases h : a = b
  · rw [h]
  · unfold pyMin
    rcases pyLt_trichot h with hab | hba
    · simp [hab, pyLt_asymm hab]
    · simp [hba, pyLt_asymm hba]

theorem pyMax_comm (a b : String) : pyMax a b = pyMax b a := by
  by_cases h : a = b
  · rw [h]
  · unfold pyMax
    rcases pyLt_trichot h with hab | hba
    · simp [hab, pyLt_asymm hab]
    · simp [hba, pyLt_asymm hba]

/-- A publication table row as read by generate_edge_list, projected to the
three columns that function reads: the semicolon-joined author field, the
title and the year. -/
structure Row where
  authors : String
  titleOfPublication : String
  yearOfPublication : String
deriving DecidableEq, Repr

/-- One row of the exploded table: one author name per (title, year). -/
structure AuthorRow where
  author : String
  titleOfPublication : String
  yearOfPublication : String
deriving DecidableEq, Repr

/-- One output row of the edge list. -/
structure EdgeRow where
  source : String
  target : String
  publication : String
  year : String
deriving DecidableEq, Repr

/-- Model of the assign-split-explode-strip steps of generate_edge_list:
one exploded row per author substring of each input row. -/
def explodeAuthors (rows : List Row) : List AuthorRow :=
  rows.flatMap fun r =>
    (splitAuthors r.authors).map fun a => ⟨a, r.titleOfPublication, r.yearOfPublication⟩

/-- Model of the pandas self-merge of the exploded table on title and year:
every pair of exploded rows agreeing on both keys, as a tuple
(authors_x, authors_y, title, year). -/
def mergeOnTitleYear (l : List AuthorRow) : List (String × String × String × String) :=
  l.flatMap fun r1 =>
    (l.filter fun r2 =>
      r1.titleOfPublication == r2.titleOfPublication &&
      r1.yearOfPublication == r2.yearOfPublication).map fun r2 =>
        (r1.author, r2.author, r1.titleOfPublication, r1.yearOfPublication)

/-- Model of generate_edge_list from fetch_publications.py (create_edge_list
in process_data.py is the identical pipeline with the author column named
local_authors): explode the author field, self-join on title and year, drop
self-pairs, deduplicate, order each pair lexicographically into source and
target, deduplicate again. -/
def generate_edge_list (rows : List Row) : List EdgeRow :=
  let data_long := explodeAuthors rows
  let joined := mergeOnTitleYear data_long
  let noSelf := joined.filter fun p => p.1 != p.2.1
  let dd1 := firstDedup noSelf
  let canon := dd1.map fun p => EdgeRow.mk (pyMin p.1 p.2.1) (pyMax p.1 p.2.1) p.2.2.1 p.2.2.2
  firstDedup canon

/-- The author a appears in the author field of some input row carrying
title t and year y. -/
def listedOn (rows : List Row) (t y a : String) : Prop :=
  ∃ r ∈ rows, r.titleOfPublication = t ∧ r.yearOfPublication = y ∧ a ∈ splitAuthors r.authors


theorem mem_explodeAuthors {rows : List Row} {ar : AuthorRow} :
    ar ∈ explodeAuthors rows ↔
      ∃ r ∈ rows, ∃ a ∈ splitAuthors r.authors,
        ar = ⟨a, r.titleOfPublication, r.yearOfPublication⟩ := by
  simp only [explodeAuthors, List.mem_flatMap, List.mem_map]
  constructor
  · rintro ⟨r, hr, a, ha, rfl⟩
    exact ⟨r, hr, a, ha, rfl⟩
  · rintro ⟨r, hr, a, ha, rfl⟩
    exact ⟨r, hr, a, ha, rfl⟩

theorem mem_mergeOnTitleYear {l : List AuthorRow} {p : String × String × String × String} :
    p ∈ mergeOnTitleYear l ↔
      ∃ r1 ∈ l, ∃ r2 ∈ l,
        r1.titleOfPublication = r2.titleOfPublication ∧
        r1.yearOfPublication = r2.yearOfPublication ∧
        p = (r1.author, r2.author, r1.titleOfPublication, r1.yearOfPublication) := by
  simp only [mergeOnTitleYear, List.mem_flatMap, List.mem_map, List.mem_filter,
    Bool.and_eq_true, beq_iff_eq]
  constructor
  · rintro ⟨r1, hr1, r2, ⟨hr2, ht, hy⟩, rfl⟩
    exact ⟨r1, hr1, r2, hr2, ht, hy, rfl⟩
  · rintro ⟨r1, hr1, r2, hr2, ht, hy, rfl⟩
    exact ⟨r1, hr1, r2, ⟨hr2, ht, hy⟩, rfl⟩

/-- Membership characterization of the edge list: a row is in the output
exactly when its pair of author names is a pair of distinct names listed
(under the same title and year) in the input, put into canonical order. -/
theorem mem_generate_edge_list {rows : List Row} {e : EdgeRow} :
    e ∈ generate_edge_list rows ↔
      ∃ a b : String, a ≠ b ∧
        listedOn rows e.publication e.year a ∧
        listedOn rows e.publication e.year b ∧
        e.source = pyMin a b ∧ e.target = pyMax a b := by
  unfold generate_edge_list
  rw [mem_firstDedup, List.mem_map]
  constructor
  · rintro ⟨p, hp, rfl⟩
    rw [mem_firstDedup, List.mem_filter] at hp
    obtain ⟨hpj, hne⟩ := hp
    obtain ⟨r1, hr1, r2, hr2, ht, hy, rfl⟩ := mem_mergeOnTitleYear.mp hpj
    obtain ⟨ρ1, hρ1, a, ha, rfl⟩ := mem_explodeAuthors.mp hr1
    obtain ⟨ρ2, hρ2, b, hb, rfl⟩ := mem_explodeAuthors.mp hr2
    refine ⟨a, b, by simpa using hne, ⟨ρ1, hρ1, rfl, rfl, ha⟩, ⟨ρ2, hρ2, ?_, ?_, hb⟩, rfl, rfl⟩
    · exact ht.symm
    · exact hy.symm
  · rintro ⟨a, b, hab, ⟨ρ1, hρ1, ht1, hy1, ha⟩, ⟨ρ2, hρ2, ht2, hy2, hb⟩, hsrc, htgt⟩
    refine ⟨(a, b, e.publication, e.year), ?_, ?_⟩
    · rw [mem_firstDedup, List.mem_filter]
      constructor
      · refine mem_mergeOnTitleYear.mpr
          ⟨⟨a, e.publication, e.year⟩, ?_, ⟨b, e.publication, e.year⟩, ?_, rfl, rfl, rfl⟩
        · exact mem_explodeAuthors.mpr ⟨ρ1, hρ1, a, ha, by rw [ht1, hy1]⟩
        · exact mem_explodeAuthors.mpr ⟨ρ2, hρ2, b, hb, by rw [ht2, hy2]⟩
      · simpa using hab
    · rw [← hsrc, ← htgt]

theorem nodup_generate_edge_list (rows : List Row) :
    (generate_edge_list rows).Nodup := by
  unfold generate_edge_list
  exact nodup_firstDedup _

theorem listedOn_cons {r : Row} {rows : List Row} {t y a : String} :
    listedOn (r :: rows) t y a ↔
      (r.titleOfPublication = t ∧ r.yearOfPublication = y ∧ a ∈ splitAuthors r.authors) ∨
      listedOn rows t y a := by
  simp only [listedOn, List.mem_cons, or_and_right, exists_or, exists_eq_left]

/-- Rows related pointwise by equal title, equal year and a permutation of
the split author list expose the same authors under each key. -/
theorem listedOn_congr {rows rows2 : List Row}
    (h : List.Forall₂ (fun r r2 =>
      r.titleOfPublication = r2.titleOfPublication ∧
      r.yearOfPublication = r2.yearOfPublication ∧
      (splitAuthors r.authors).Perm (splitAuthors r2.authors)) rows rows2)
    (t y a : String) : listedOn rows t y a ↔ listedOn rows2 t y a := by
  induction h with
  | nil => simp [listedOn]
  | cons hr htail ih =>
    rw [listedOn_cons, listedOn_cons, ih]
    obtain ⟨ht, hy, hperm⟩ := hr
    exact or_congr
      (by rw [ht, hy]; exact and_congr Iff.rfl (and_congr Iff.rfl hperm.mem_iff))
      Iff.rfl

/-- C1. For every input table, the edge list has no duplicate rows; every
row has its source strictly lexicographically below its target (hence no
self-loop); for every pair of distinct author names listed under a common
title and year, the canonically ordered row for that pair occurs exactly
once; and every output row arises that way. Together with the symmetry of
pyMin and pyMax this is the claimed one-canonical-row-per-unordered-pair
invariant. -/
theorem edge_list_canonical_pairs (rows : List Row) :
    (generate_edge_list rows).Nodup ∧
    (∀ e ∈ generate_edge_list rows,
      e.source ≠ e.target ∧ pyLt e.source e.target = true) ∧
    (∀ t y a b : String, a ≠ b → listedOn rows t y a → listedOn rows t y b →
      (generate_edge_list rows).count (EdgeRow.mk (pyMin a b) (pyMax a b) t y) = 1) ∧
    (∀ e ∈ generate_edge_list rows,
      ∃ a b : String, a ≠ b ∧
        listedOn rows e.publication e.year a ∧
        listedOn rows e.publication e.year b ∧
        e.source = pyMin a b ∧ e.target = pyMax a b) := by
  refine ⟨nodup_generate_edge_list rows, ?_, ?_, ?_⟩
  · intro e he
    obtain ⟨a, b, hab, _, _, hs, ht⟩ := mem_generate_edge_list.mp he
    rw [hs, ht]
    exact ⟨pyMin_ne_pyMax hab, pyLt_pyMin_pyMax hab⟩
  · intro t y a b hab ha hb
    have hmem : EdgeRow.mk (pyMin a b) (pyMax a b) t y ∈ generate_edge_list rows :=
      mem_generate_edge_list.mpr ⟨a, b, hab, ha, hb, rfl, rfl⟩
    exact List.count_eq_one_of_mem (nodup_generate_edge_list rows) hmem
  · intro e he
    exact mem_generate_edge_list.mp he

/-- Witness for C1 at a concrete table. -/
theorem edge_list_canonical_pairs_witness :
    (generate_edge_list [⟨"B;A;C", "P", "2020"⟩]).count
      (EdgeRow.mk (pyMin ("A") ("B")) (pyMax ("A") ("B")) ("P") ("2020")) = 1 :=
  (edge_list_canonical_pairs [⟨"B;A;C", "P", "2020"⟩]).2.2.1 ("P") ("2020") ("A") ("B")
    (by decide)
    ⟨⟨"B;A;C", "P", "2020"⟩, by decide, rfl, rfl, by decide⟩
    ⟨⟨"B;A;C", "P", "2020"⟩, by decide, rfl, rfl, by decide⟩

/-- C9. Permuting the author list of each row before splitting, while
keeping titles and years, yields exactly the same edge set. -/
theorem edge_list_perm_invariant (rows rows2 : List Row)
    (h : List.Forall₂ (fun r r2 =>
      r.titleOfPublication = r2.titleOfPublication ∧
      r.yearOfPublication = r2.yearOfPublication ∧
      (splitAuthors r.authors).Perm (splitAuthors r2.authors)) rows rows2) :
    (generate_edge_list rows).toFinset = (generate_edge_list rows2).toFinset := by
  ext e
  simp only [List.mem_toFinset, mem_generate_edge_list]
  constructor
  · rintro ⟨a, b, hab, h1, h2, hs, ht⟩
    exact ⟨a, b, hab, (listedOn_congr h _ _ _).mp h1, (listedOn_congr h _ _ _).mp h2, hs, ht⟩
  · rintro ⟨a, b, hab, h1, h2, hs, ht⟩
    exact ⟨a, b, hab, (listedOn_congr h _ _ _).mpr h1, (listedOn_congr h _ _ _).mpr h2, hs, ht⟩

/-- Witness for C9 at a concrete pair of tables differing by author order. -/
theorem edge_list_perm_invariant_witness :
    (generate_edge_list [⟨"B;A", "P", "2020"⟩]).toFinset =
      (generate_edge_list [⟨"A; B", "P", "2020"⟩]).toFinset :=
  edge_list_perm_invariant _ _
    (List.Forall₂.cons ⟨rfl, rfl, by decide⟩ List.Forall₂.nil)

/-- C3 counterexample: a whitespace-only author substring survives into the
edge list. The input row with author field " Alice ; ;Bob" produces an edge
row pairing the empty name with Alice, because generate_edge_list never
filters out blank names after splitting and stripping. -/
theorem blank_author_edge_counterexample :
    ("" ∈ splitAuthors (" Alice ; ;Bob")) ∧
    EdgeRow.mk ("") ("Alice") ("P") ("2020") ∈
      generate_edge_list [⟨" Alice ; ;Bob", "P", "2020"⟩] := by
  decide

/-- A publication table row as read by generate_node_list, projected to the
two columns that function reads: the author field and the department. -/
structure NRow where
  authors : String
  department : String
deriving DecidableEq, Repr

/-- One output row of the node list. -/
structure Node where
  id : String
  label : String
  department : String
deriving DecidableEq, Repr

/-- Model of one defaultdict(list) append: add value d to the list of key a,
creating the entry at the end when the key is new. Python dictionaries
preserve insertion order, so the association list order models it exactly. -/
def addAffil : List (String × List String) → String → String → List (String × List String)
  | [], a, d => [(a, [d])]
  | (k, ds) :: rest, a, d =>
    if k = a then (k, ds ++ [d]) :: rest else (k, ds) :: addAffil rest a d

/-- Model of the accumulation loop of generate_node_list: for every row,
split the author field, strip each name, skip blank names, and append the
row department to the list of each remaining author. One append per
occurrence of the author in the field. -/
def author_affiliations (rows : List NRow) : List (String × List String) :=
  rows.foldl (fun acc r =>
    (splitAuthors r.authors).foldl (fun acc2 ca =>
      if ca ≠ "" then addAffil acc2 ca r.department else acc2) acc) []

/-- First element of the fold keeping the earliest maximal-count element:
the accumulator is replaced only on a strictly larger count. -/
def foldMax (cnt : α → Nat) (k : α) (ks : List α) : α :=
  ks.foldl (fun best c => if cnt best < cnt c then c else best) k

/-- Model of Counter(departments).most_common(1)[0][0]: the key with the
highest count; keys with equal counts are ordered by insertion, which for a
Counter built from a list is the order of first occurrence, so ties go to
the earliest-encountered value. The empty-list case is unreachable in
generate_node_list because every accumulated list is nonempty. -/
def most_common1 (l : List String) : String :=
  match firstDedup l with
  | [] => ""
  | k :: ks => foldMax (fun c => l.count c) k ks

/-- Model of generate_node_list from fetch_publications.py: one node per
accumulated author, labeled by the author name, carrying the most common
department of that author. -/
def generate_node_list (rows : List NRow) : List Node :=
  (author_affiliations rows).map fun p => ⟨p.1, p.1, most_common1 p.2⟩

/-- Index of the first occurrence of an element. -/
def firstIdx [DecidableEq α] (a : α) : List α → Nat
  | [] => 0
  | b :: l => if a = b then 0 else firstIdx a l + 1


theorem foldMax_spec (cnt : α → Nat) :
    ∀ (ks : List α) (k : α),
      (∃ l1 l2, k :: ks = l1 ++ foldMax cnt k ks :: l2 ∧
        ∀ x ∈ l1, cnt x < cnt (foldMax cnt k ks)) ∧
      ∀ x ∈ k :: ks, cnt x ≤ cnt (foldMax cnt k ks) := by
  intro ks
  induction ks with
  | nil =>
    intro k
    refine ⟨⟨[], [], rfl, by simp⟩, ?_⟩
    intro x hx
    rcases List.mem_cons.mp hx with h | h
    · exact h ▸ le_refl _
    · exact absurd h (List.not_mem_nil x)
  | cons a ks ih =>
    intro k
    by_cases h : cnt k < cnt a
    · have hstep : foldMax cnt k (a :: ks) = foldMax cnt a ks := by
        simp [foldMax, List.foldl_cons, if_pos h]
      obtain ⟨⟨l1, l2, hdec, hl1⟩, hmax⟩ := ih a
      rw [hstep]
      constructor
      · refine ⟨k :: l1, l2, by rw [List.cons_append, ← hdec], ?_⟩
        intro x hx
        rcases List.mem_cons.mp hx with hxk | hxl
        · subst hxk
          exact h.trans_le (hmax a (List.mem_cons_self a ks))
        · exact hl1 x hxl
      · intro x hx
        rcases List.mem_cons.mp hx with hxk | hxm
        · subst hxk
          exact (h.trans_le (hmax a (List.mem_cons_self a ks))).le
        · exact hmax x hxm
    · have hstep : foldMax cnt k (a :: ks) = foldMax cnt k ks := by
        simp [foldMax, List.foldl_cons, if_neg h]
      obtain ⟨⟨l1, l2, hdec, hl1⟩, hmax⟩ := ih k
      rw [hstep]
      have ha_le : cnt a ≤ cnt k := Nat.not_lt.mp h
      constructor
      · cases l1 with
        | nil =>
          have hk : k = foldMax cnt k ks := by
            simp only [List.nil_append] at hdec
            exact (List.cons.inj hdec).1
          refine ⟨[], a :: ks, ?_, by simp⟩
          rw [← hk]
          simp
        | cons b l1' =>
          rw [List.cons_append] at hdec
          obtain ⟨hkb, hks⟩ := List.cons.inj hdec
          subst hkb
          refine ⟨k :: a :: l1', l2, ?_, ?_⟩
          · rw [List.cons_append, List.cons_append, ← hks]
          · intro x hx
            rcases List.mem_cons.mp hx with hxk | hx2
            · subst hxk
              exact hl1 x (List.mem_cons_self x l1')
            · rcases List.mem_cons.mp hx2 with hxa | hxl
              · subst hxa
                exact ha_le.trans_lt (hl1 k (List.mem_cons_self k l1'))
              · exact hl1 x (List.mem_cons_of_mem k hxl)
      · intro x hx
        rcases List.mem_cons.mp hx with hxk | hxm
        · exact hxk ▸ hmax k (List.mem_cons_self k ks)
        · rcases List.mem_cons.mp hxm with hxa | hxl
          · exact hxa ▸ ha_le.trans (hmax k (List.mem_cons_self k ks))
          · exact hmax x (List.mem_cons_of_mem k hxl)

theorem firstIdx_cons_self [DecidableEq α] (a : α) (l : List α) :
    firstIdx a (a :: l) = 0 := by
  simp [firstIdx]

theorem firstIdx_cons_ne [DecidableEq α] {a b : α} (l : List α) (h : a ≠ b) :
    firstIdx a (b :: l) = firstIdx a l + 1 := by
  simp [firstIdx, h]

/-- The keep-first deduplication lists elements in order of first
occurrence. -/
theorem firstDedupAux_pairwise_firstIdx [DecidableEq α] (l : List α) :
    ∀ seen : List α,
      (firstDedupAux seen l).Pairwise (fun x y => firstIdx x l < firstIdx y l) := by
  induction l with
  | nil => intro seen; simp [firstDedupAux]
  | cons a l ih =>
    intro seen
    by_cases ha : a ∈ seen
    · rw [show firstDedupAux seen (a :: l) = firstDedupAux seen l from by
        simp [firstDedupAux, ha]]
      refine List.Pairwise.imp_of_mem ?_ (ih seen)
      intro x y hx hy hxy
      have hxs : x ∉ seen := ((mem_firstDedupAux l seen).mp hx).2
      have hys : y ∉ seen := ((mem_firstDedupAux l seen).mp hy).2
      have hxa : x ≠ a := fun h => hxs (h ▸ ha)
      have hya : y ≠ a := fun h => hys (h ▸ ha)
      rw [firstIdx_cons_ne l hxa, firstIdx_cons_ne l hya]
      exact Nat.succ_lt_succ hxy
    · rw [show firstDedupAux seen (a :: l) = a :: firstDedupAux (a :: seen) l from by
        simp [firstDedupAux, ha], List.pairwise_cons]
      constructor
      · intro y hy
        have hys : y ∉ a :: seen := ((mem_firstDedupAux l (a :: seen)).mp hy).2
        have hya : y ≠ a := fun h => hys (h ▸ List.mem_cons_self a seen)
        rw [firstIdx_cons_self, firstIdx_cons_ne l hya]
        exact Nat.succ_pos _
      · refine List.Pairwise.imp_of_mem ?_ (ih (a :: seen))
        intro x y hx hy hxy
        have hxs : x ∉ a :: seen := ((mem_firstDedupAux l (a :: seen)).mp hx).2
        have hys : y ∉ a :: seen := ((mem_firstDedupAux l (a :: seen)).mp hy).2
        have hxa : x ≠ a := fun h => hxs (h ▸ List.mem_cons_self a seen)
        have hya : y ≠ a := fun h => hys (h ▸ List.mem_cons_self a seen)
        rw [firstIdx_cons_ne l hxa, firstIdx_cons_ne l hya]
        exact Nat.succ_lt_succ hxy

theorem firstDedup_pairwise_firstIdx [DecidableEq α] (l : List α) :
    (firstDedup l).Pairwise (fun x y => firstIdx x l < firstIdx y l) :=
  firstDedupAux_pairwise_firstIdx l []

/-- The selection made by most_common1 on a nonempty list: a member of the
list whose count is maximal, and the earliest-encountered value among those
of maximal count. -/
theorem most_common1_spec (l : List String) (hl : l ≠ []) :
    most_common1 l ∈ l ∧
    (∀ x ∈ l, l.count x ≤ l.count (most_common1 l)) ∧
    (∀ x ∈ l, l.count x = l.count (most_common1 l) →
      firstIdx (most_common1 l) l ≤ firstIdx x l) := by
  rcases hfd : firstDedup l with _ | ⟨k, ks⟩
  · exact absurd hfd (firstDedup_ne_nil hl)
  · have hmc : most_common1 l = foldMax (fun c => l.count c) k ks := by
      simp only [most_common1, hfd]
    obtain ⟨⟨l1, l2, hdec, hl1⟩, hmax⟩ := foldMax_spec (fun c => l.count c) ks k
    rw [hmc]
    set r := foldMax (fun c => l.count c) k ks with hr
    have hr_mem_fd : r ∈ firstDedup l := by
      rw [hfd, hdec]
      exact List.mem_append_right l1 (List.mem_cons_self r l2)
    refine ⟨mem_firstDedup.mp hr_mem_fd, ?_, ?_⟩
    · intro x hx
      have : x ∈ k :: ks := by rw [← hfd]; exact mem_firstDedup.mpr hx
      exact hmax x this
    · intro x hx hcx
      have hxfd : x ∈ k :: ks := by rw [← hfd]; exact mem_firstDedup.mpr hx
      rw [hdec] at hxfd
      rcases List.mem_append.mp hxfd with hx1 | hx2
      · exact absurd hcx (Nat.ne_of_lt (hl1 x hx1))
      · rcases List.mem_cons.mp hx2 with hxr | hxl2
        · exact hxr ▸ le_refl _
        · have hpw : (firstDedup l).Pairwise (fun u v => firstIdx u l < firstIdx v l) :=
            firstDedup_pairwise_firstIdx l
          rw [hfd, hdec] at hpw
          have hsuf : (r :: l2).Pairwise (fun u v => firstIdx u l < firstIdx v l) :=
            List.Pairwise.sublist (List.suffix_append l1 (r :: l2)).sublist hpw
          exact (List.rel_of_pairwise_cons hsuf hxl2).le

theorem addAffil_key_pred (Q : String → Prop) :
    ∀ (acc : List (String × List String)) (a d : String),
      (∀ q ∈ acc, Q q.1) → Q a → ∀ p ∈ addAffil acc a d, Q p.1 := by
  intro acc
  induction acc with
  | nil =>
    intro a d _ hQa p hp
    rcases List.mem_cons.mp hp with h | h
    · exact h ▸ hQa
    · exact absurd h (List.not_mem_nil p)
  | cons q acc ih =>
    intro a d hacc hQa p hp
    obtain ⟨k, ds⟩ := q
    by_cases hka : k = a
    · rw [show addAffil ((k, ds) :: acc) a d = (k, ds ++ [d]) :: acc from by
        simp [addAffil, hka]] at hp
      rcases List.mem_cons.mp hp with h | h
      · exact h ▸ hacc (k, ds) (List.mem_cons_self _ _)
      · exact hacc p (List.mem_cons_of_mem _ h)
    · rw [show addAffil ((k, ds) :: acc) a d = (k, ds) :: addAffil acc a d from by
        simp [addAffil, hka]] at hp
      rcases List.mem_cons.mp hp with h | h
      · exact h ▸ hacc (k, ds) (List.mem_cons_self _ _)
      · exact ih a d (fun q hq => hacc q (List.mem_cons_of_mem _ hq)) hQa p h

theorem addAffil_val_ne_nil :
    ∀ (acc : List (String × List String)) (a d : String),
      (∀ q ∈ acc, q.2 ≠ []) → ∀ p ∈ addAffil acc a d, p.2 ≠ [] := by
  intro acc
  induction acc with
  | nil =>
    intro a d _ p hp
    rcases List.mem_cons.mp hp with h | h
    · rw [h]; simp
    · exact absurd h (List.not_mem_nil p)
  | cons q acc ih =>
    intro a d hacc p hp
    obtain ⟨k, ds⟩ := q
    by_cases hka : k = a
    · rw [show addAffil ((k, ds) :: acc) a d = (k, ds ++ [d]) :: acc from by
        simp [addAffil, hka]] at hp
      rcases List.mem_cons.mp hp with h | h
      · rw [h]; simp
      · exact hacc p (List.mem_cons_of_mem _ h)
    · rw [show addAffil ((k, ds) :: acc) a d = (k, ds) :: addAffil acc a d from by
        simp [addAffil, hka]] at hp
      rcases List.mem_cons.mp hp with h | h
      · exact h ▸ hacc (k, ds) (List.mem_cons_self _ _)
      · exact ih a d (fun q hq => hacc q (List.mem_cons_of_mem _ hq)) p h

theorem inner_fold_key_pred (Q : String → Prop) (dep : String) :
    ∀ (auths : List String) (acc : List (String × List String)),
      (∀ q ∈ acc, Q q.1) → (∀ a ∈ auths, a ≠ "" → Q a) →
      ∀ p ∈ auths.foldl (fun acc2 ca =>
          if ca ≠ "" then addAffil acc2 ca dep else acc2) acc, Q p.1 := by
  intro auths
  induction auths with
  | nil => intro acc hacc _ p hp; exact hacc p hp
  | cons ca auths ih =>
    intro acc hacc hau p hp
    rw [List.foldl_cons] at hp
    refine ih _ ?_ (fun a ha => hau a (List.mem_cons_of_mem ca ha)) p hp
    by_cases hca : ca = ""
    · simpa [hca] using hacc
    · intro q hq
      rw [if_pos (by exact hca)] at hq
      exact addAffil_key_pred Q acc ca dep hacc
        (hau ca (List.mem_cons_self ca auths) hca) q hq

theorem inner_fold_val_ne_nil (dep : String) :
    ∀ (auths : List String) (acc : List (String × List String)),
      (∀ q ∈ acc, q.2 ≠ []) →
      ∀ p ∈ auths.foldl (fun acc2 ca =>
          if ca ≠ "" then addAffil acc2 ca dep else acc2) acc, p.2 ≠ [] := by
  intro auths
  induction auths with
  | nil => intro acc hacc p hp; exact hacc p hp
  | cons ca auths ih =>
    intro acc hacc p hp
    rw [List.foldl_cons] at hp
    refine ih _ ?_ p hp
    by_cases hca : ca = ""
    · simpa [hca] using hacc
    · intro q hq
      rw [if_pos (by exact hca)] at hq
      exact addAffil_val_ne_nil acc ca dep hacc q hq

/-- Preservation of a key predicate through the whole accumulation fold. -/
theorem outer_fold_key_pred (Q : String → Prop) :
    ∀ (rs : List NRow) (acc : List (String × List String)),
      (∀ q ∈ acc, Q q.1) →
      (∀ r ∈ rs, ∀ a ∈ splitAuthors r.authors, a ≠ "" → Q a) →
      ∀ p ∈ rs.foldl (fun acc r =>
          (splitAuthors r.authors).foldl (fun acc2 ca =>
            if ca ≠ "" then addAffil acc2 ca r.department else acc2) acc) acc, Q p.1 := by
  intro rs
  induction rs with
  | nil => intro acc hacc _ p hp; exact hacc p hp
  | cons r rs ih =>
    intro acc hacc hrows p hp
    rw [List.foldl_cons] at hp
    refine ih _ ?_ (fun r2 hr2 => hrows r2 (List.mem_cons_of_mem r hr2)) p hp
    exact inner_fold_key_pred Q r.department (splitAuthors r.authors) acc hacc
      (hrows r (List.mem_cons_self r rs))

/-- Preservation of nonemptiness of the affiliation lists through the whole
accumulation fold. -/
theorem outer_fold_val_ne_nil :
    ∀ (rs : List NRow) (acc : List (String × List String)),
      (∀ q ∈ acc, q.2 ≠ []) →
      ∀ p ∈ rs.foldl (fun acc r =>
          (splitAuthors r.authors).foldl (fun acc2 ca =>
            if ca ≠ "" then addAffil acc2 ca r.department else acc2) acc) acc, p.2 ≠ [] := by
  intro rs
  induction rs with
  | nil => intro acc hacc p hp; exact hacc p hp
  | cons r rs ih =>
    intro acc hacc p hp
    rw [List.foldl_cons] at hp
    exact ih _ (inner_fold_val_ne_nil r.department (splitAuthors r.authors) acc hacc) p hp

/-- Invariant of the accumulation loop: every accumulated key is a nonblank
stripped author name occurring in some input row, and every accumulated
affiliation list is nonempty. -/
theorem author_affiliations_inv (rows : List NRow) :
    ∀ p ∈ author_affiliations rows,
      (p.1 ≠ "" ∧ ∃ r ∈ rows, p.1 ∈ splitAuthors r.authors) ∧ p.2 ≠ [] := by
  intro p hp
  constructor
  · refine outer_fold_key_pred
      (fun a => a ≠ "" ∧ ∃ r ∈ rows, a ∈ splitAuthors r.authors) rows [] (by simp) ?_ p hp
    intro r hr a ha hane
    exact ⟨hane, r, hr, ha⟩
  · exact outer_fold_val_ne_nil rows [] (by simp) p hp

/-- C3 amended: the node list excludes blank author names. Every node has a
nonblank id that arises as a stripped author substring of some input row
(the edge list, by contrast, does not filter blanks, as the counterexample
shows). -/
theorem node_list_excludes_blanks (rows : List NRow) (n : Node)
    (hn : n ∈ generate_node_list rows) :
    n.id ≠ "" ∧ ∃ r ∈ rows, n.id ∈ splitAuthors r.authors := by
  obtain ⟨p, hp, rfl⟩ := List.mem_map.mp hn
  exact (author_affiliations_inv rows p hp).1

/-- Witness for the amended C3 at a concrete table. -/
theorem node_list_excludes_blanks_witness :
    (⟨"Alice", "Alice", "D"⟩ : Node).id ≠ "" ∧
    ∃ r ∈ [(⟨" Alice ; ;Bob", "D"⟩ : NRow)],
      (⟨"Alice", "Alice", "D"⟩ : Node).id ∈ splitAuthors r.authors :=
  node_list_excludes_blanks [⟨" Alice ; ;Bob", "D"⟩] ⟨"Alice", "Alice", "D"⟩ (by decide)

/-- Modelled from the words of claim C4: accumulate, for each author, one
occurrence of the affiliation value per row the author appears on, then
select the value of maximal count, ties resolved by earliest encounter. -/
def claimed_affiliation (rows : List NRow) (a : String) : String :=
  most_common1 ((rows.filter fun r => (splitAuthors r.authors).contains a).map NRow.department)

/-- C4 counterexample: an author listed twice in one row contributes that
row affiliation twice. With rows (A;A, Y), (A, X), (A, X) the code
accumulates [Y, Y, X, X] and picks Y, while the claimed one-per-row rule
accumulates [Y, X, X] and picks X. -/
theorem node_affiliation_per_row_counterexample :
    generate_node_list [⟨"A;A", "Y"⟩, ⟨"A", "X"⟩, ⟨"A", "X"⟩] = [⟨"A", "A", "Y"⟩] ∧
    claimed_affiliation [⟨"A;A", "Y"⟩, ⟨"A", "X"⟩, ⟨"A", "X"⟩] ("A") = "X" ∧
    ("Y" : String) ≠ "X" := by
  decide

/-- C4 amended: each node carries the affiliation of maximal occurrence
count over the values accumulated once per occurrence of the author in each
row author field; on ties the earliest-encountered value wins. -/
theorem node_affiliation_most_common (rows : List NRow) (n : Node)
    (hn : n ∈ generate_node_list rows) :
    ∃ ds : List String, (n.id, ds) ∈ author_affiliations rows ∧
      n.department ∈ ds ∧
      (∀ d ∈ ds, ds.count d ≤ ds.count n.department) ∧
      (∀ d ∈ ds, ds.count d = ds.count n.department →
        firstIdx n.department ds ≤ firstIdx d ds) := by
  obtain ⟨p, hp, rfl⟩ := List.mem_map.mp hn
  obtain ⟨_, hne⟩ := author_affiliations_inv rows p hp
  obtain ⟨hmem, hmax, htie⟩ := most_common1_spec p.2 hne
  exact ⟨p.2, hp, hmem, hmax, htie⟩

/-- Witness for the amended C4 at a concrete table, also exhibiting the
explicit example of the claim: an author on three rows with affiliations
X, X, Y is assigned X. -/
theorem node_affiliation_most_common_witness :
    ∃ ds : List String,
      ((⟨"A", "A", "X"⟩ : Node).id, ds) ∈
        author_affiliations [⟨"A", "X"⟩, ⟨"A", "X"⟩, ⟨"A", "Y"⟩] ∧
      (⟨"A", "A", "X"⟩ : Node).department ∈ ds ∧
      (∀ d ∈ ds, ds.count d ≤ ds.count (⟨"A", "A", "X"⟩ : Node).department) ∧
      (∀ d ∈ ds, ds.count d = ds.count (⟨"A", "A", "X"⟩ : Node).department →
        firstIdx (⟨"A", "A", "X"⟩ : Node).department ds ≤ firstIdx d ds) :=
  node_affiliation_most_common [⟨"A", "X"⟩, ⟨"A", "X"⟩, ⟨"A", "Y"⟩] ⟨"A", "A", "X"⟩ (by decide)

/-- A loaded CSV table: the list of column names and the rows as
association lists from column name to cell value. -/
structure Table where
  columns : List String
  rows : List (List (String × String))
deriving Repr

/-- Cell access for a row of a table whose column is known to exist. -/
def cellOf (row : List (String × String)) (c : String) : String :=
  (row.lookup c).getD ""

/-- Model of generate_node_list at the input boundary: the source first
checks that the authors and department columns are present and raises
ValueError otherwise, then runs the accumulation on those two columns. -/
def generate_node_list_checked (t : Table) : Except String (List Node) :=
  if "authors" ∉ t.columns ∨ "department" ∉ t.columns then
    .error "ValueError: CSV must contain authors and department columns."
  else
    .ok (generate_node_list (t.rows.map fun r => ⟨cellOf r "authors", cellOf r "department"⟩))

/-- Model of generate_edge_list at the input boundary: the source performs
no explicit check; subscripting the missing authors column raises KeyError,
and the later merge on the title and year columns raises KeyError when one
of those is missing. The department column is never read. -/
def generate_edge_list_checked (t : Table) : Except String (List EdgeRow) :=
  if "authors" ∉ t.columns then
    .error "KeyError: authors"
  else if "titleOfPublication" ∉ t.columns ∨ "yearOfPublication" ∉ t.columns then
    .error "KeyError: merge key"
  else
    .ok (generate_edge_list (t.rows.map fun r =>
      ⟨cellOf r "authors", cellOf r "titleOfPublication", cellOf r "yearOfPublication"⟩))

/-- C5 counterexample: a table having the authors, title and year columns
but no department column still produces an edge list table; only the node
builder raises. So a missing affiliation column does not prevent all graph
builder output. -/
theorem missing_department_still_builds_edges :
    ("department" ∉ (Table.mk ["authors", "titleOfPublication", "yearOfPublication"]
      [[("authors", "Alice;Bob"), ("titleOfPublication", "P"), ("yearOfPublication", "2020")]]).columns) ∧
    generate_edge_list_checked (Table.mk ["authors", "titleOfPublication", "yearOfPublication"]
      [[("authors", "Alice;Bob"), ("titleOfPublication", "P"), ("yearOfPublication", "2020")]]) =
      .ok [⟨"Alice", "Bob", "P", "2020"⟩] ∧
    (∃ msg, generate_node_list_checked (Table.mk ["authors", "titleOfPublication", "yearOfPublication"]
      [[("authors", "Alice;Bob"), ("titleOfPublication", "P"), ("yearOfPublication", "2020")]]) =
      .error msg) := by
  refine ⟨by decide, rfl, ⟨"ValueError: CSV must contain authors and department columns.", rfl⟩⟩

/-- C5 amended: the node builder raises a fatal input-shape error and
produces no node table whenever the author or the department column is
missing; the edge builder raises when the author column is missing but does
not require the department column. -/
theorem missing_column_behavior (t : Table) :
    (("authors" ∉ t.columns ∨ "department" ∉ t.columns) →
      generate_node_list_checked t =
        .error "ValueError: CSV must contain authors and department columns.") ∧
    ("authors" ∉ t.columns →
      generate_edge_list_checked t = .error "KeyError: authors") := by
  constructor
  · intro h
    simp only [generate_node_list_checked, if_pos h]
  · intro h
    simp only [generate_edge_list_checked, if_pos h]

/-- Witness for the amended C5 at a concrete empty table. -/
theorem missing_column_behavior_witness :
    generate_node_list_checked (Table.mk [] []) =
      .error "ValueError: CSV must contain authors and department columns." ∧
    generate_edge_list_checked (Table.mk [] []) = .error "KeyError: authors" :=
  ⟨(missing_column_behavior (Table.mk [] [])).1 (Or.inl (by decide)),
   (missing_column_behavior (Table.mk [] [])).2 (by decide)⟩

/-- Python exceptions relevant to the modeled code. -/
inductive PyErr where
  | requestError (msg : String)
  | keyError (key : String)
  | attributeError
  | typeError
deriving DecidableEq, Repr

/-- JSON-like values as returned by response.json(). -/
inductive Json where
  | jnull : Json
  | jstr : String → Json
  | jnum : Int → Json
  | jobj : List (String × Json) → Json
  | jarr : List Json → Json

/-- Python dictionary subscripting d[k]: raises KeyError when the key is
absent and TypeError when the value is not a dictionary. -/
def Json.subscript : Json → String → Except PyErr Json
  | .jobj kvs, k =>
    match kvs.lookup k with
    | some v => .ok v
    | none => .error (.keyError k)
  | _, _ => .error .typeError

/-- Python d.get(k, default): returns the default when the key is absent,
and raises AttributeError when the receiver is not a dictionary. -/
def Json.getDefault : Json → String → Json → Except PyErr Json
  | .jobj kvs, k, dflt => .ok ((kvs.lookup k).getD dflt)
  | _, _, _ => .error .attributeError

/-- The static unit id to department name lookup table of
fetch_publications.py, as an association list in source order. -/
def UNIT_ID_TO_NAME : List (String × String) :=
  [("b5f6c35a-0bc3-4587-a31e-0a98c744eab7", "Administration of the Philosophical Faculty"),
   ("02ef482d-78d9-474d-bcb1-7a8c6f858a1d", "School of Humanities"),
   ("dc25550a-df97-4873-8cba-a0e141643ce9", "University Teacher Training School of University of Eastern Finland"),
   ("02bfe5c2-333f-44eb-b599-902bff03c2bb", "School of Educational Sciences and Psychology"),
   ("2d329a68-8abe-417c-8071-d9306940e5c7", "School of Applied Educational Science and Teacher Education"),
   ("de7fe9f9-69bd-4a6b-bb99-05ceb760b1dd", "School of Theology"),
   ("8a54b7d0-e14d-4482-9957-fb2ed8ffce18", "Department of Physics and Mathematics"),
   ("5cec5645-aa02-4878-ab19-8d41a446b152", "Department of Chemistry and Sustainable Technology"),
   ("3733c177-e054-40df-9407-ac302b6add0d", "Administration of the Faculty of Science, Forestry and Technology"),
   ("3e7d0d85-4423-4b57-b532-922714578b6c", "School of Forest Sciences"),
   ("e4e9aee0-1c6a-4218-b5ce-89ad0a576a2e", "Department of Technical Physics"),
   ("88f6f7f1-e92b-4863-a485-848b130320a7", "School of Computing"),
   ("15db3714-ba67-4a03-af96-2bf6eafbd7b7", "Department of Environmental and Biological Sciences"),
   ("c91b0d6d-53bf-4063-a6c4-3980eb32ef35", "Pharmacy of University of Eastern Finland"),
   ("09a9fb8c-5d14-41d2-aafa-c3bfff59a568", "Centre for Continuous Learning of the University of Eastern Finland"),
   ("3df78c77-1795-4115-a84c-b080ee701f87", "Language Centre"),
   ("b8621176-27da-47a9-913f-6892f4297bd0", "Library"),
   ("0ee2a2bf-a0fd-4d19-be67-9832b043b1e9", "A.I. Virtanen Institute"),
   ("9b6ad0a5-2282-4f1f-806f-83b3d249cd70", "School of Pharmacy"),
   ("ba1f649a-cf6b-48fa-9b5c-c7d009052af3", "Department of Nursing Sciences"),
   ("0625aad6-f1d4-4821-aab9-2400b11b6f81", "School of Medicine"),
   ("35b85f11-b99d-410a-b5f4-3fd32b19a662", "Administration of the Faculty of Health Sciences"),
   ("d05c9db6-0c0e-4469-892a-6b6af55a2a75", "Department of Geographical and Historical Studies"),
   ("b013f81c-a354-4921-9294-56726424a9a5", "Karelian Institute"),
   ("1d1a7a1f-8ade-4b49-a741-3604bb1372f4", "Business School"),
   ("2b5d5783-bce1-457b-ad52-a3fd936601c1", "Law School"),
   ("8709d377-e6db-4736-a8f9-cc839570d108", "Department of Health and Social Management"),
   ("b1cd5940-91df-469b-a0dd-2c5c0e02158e", "Administration of the Faculty of Social Sciences and Business Studies"),
   ("2C12723657-8721-4dfd-8bd9-74294042a794", "Department of Social Sciences"),
   ("ecdc1870-14cf-4d27-a3a0-837159a72174", "University of Eastern Finland, leadership"),
   ("3d3e782c-8ed7-4d07-af1f-b8f407ea5df9", "University Services")]

/-- Model of the effective filter_publication_data of fetch_publications.py
(the second definition of that name, which in Python shadows the first):
build the output dictionary field by field in source order. The value of
publication["data"] is looked up by direct subscript, so its absence
raises; every field below it is read with .get and a default of an empty
dictionary. -/
def filter_publication_data (publication : Json) (local_unit_id : String) :
    Except PyErr (List (String × Json)) :=
  match publication.subscript "data" with
  | .error e => .error e
  | .ok d =>
    match d.getDefault "titleOfPublication" (.jobj []) with
    | .error e => .error e
    | .ok title =>
      match d.getDefault "authorsOfThePublication" (.jobj []) with
      | .error e => .error e
      | .ok authors =>
        match publication.subscript "data" with
        | .error e => .error e
        | .ok d2 =>
          match d2.getDefault "detailedPublicationInformation" (.jobj []) with
          | .error e => .error e
          | .ok dpi =>
            match dpi.getDefault "yearOfPublication" (.jobj []) with
            | .error e => .error e
            | .ok year =>
              .ok [("titleOfPublication", title),
                   ("authorsOfThePublication", authors),
                   ("yearOfPublication", year),
                   ("localUnitId", .jstr local_unit_id),
                   ("department",
                     .jstr ((UNIT_ID_TO_NAME.lookup local_unit_id).getD "Unknown Department"))]

/-- C7 counterexample: at a concrete publication the normalizer returns
five fields, not the four claimed; the raw unit id is kept as the extra
localUnitId field alongside the resolved department. -/
theorem normalizer_five_fields_counterexample :
    (filter_publication_data (Json.jobj [("data", Json.jobj [])]) ("u")).map
        (fun out => out.map Prod.fst) =
      .ok ["titleOfPublication", "authorsOfThePublication", "yearOfPublication",
           "localUnitId", "department"] ∧
    ["titleOfPublication", "authorsOfThePublication", "yearOfPublication",
     "localUnitId", "department"].length ≠ 4 :=
  ⟨rfl, by decide⟩

/-- C7 amended: every successful normalization returns exactly the five
fields title, authors, year, raw unit id and department, in source order,
with the department resolved through the static lookup table and the fixed
sentinel Unknown Department used when the id is not in the table. -/
theorem normalizer_output_schema (pub : Json) (uid : String)
    (out : List (String × Json)) (h : filter_publication_data pub uid = .ok out) :
    out.map Prod.fst = ["titleOfPublication", "authorsOfThePublication",
      "yearOfPublication", "localUnitId", "department"] ∧
    out.lookup "localUnitId" = some (.jstr uid) ∧
    out.lookup "department" =
      some (.jstr ((UNIT_ID_TO_NAME.lookup uid).getD "Unknown Department")) := by
  unfold filter_publication_data at h
  repeat' split at h
  all_goals try exact Except.noConfusion h
  injection h with hout
  subst hout
  exact ⟨rfl, rfl, rfl⟩

/-- Witness for the amended C7 at a concrete publication. -/
theorem normalizer_output_schema_witness :
    ([("titleOfPublication", Json.jobj []), ("authorsOfThePublication", Json.jobj []),
      ("yearOfPublication", Json.jobj []), ("localUnitId", Json.jstr "u"),
      ("department", Json.jstr "Unknown Department")].map Prod.fst =
      ["titleOfPublication", "authorsOfThePublication", "yearOfPublication",
       "localUnitId", "department"]) ∧
    ([("titleOfPublication", Json.jobj []), ("authorsOfThePublication", Json.jobj []),
      ("yearOfPublication", Json.jobj []), ("localUnitId", Json.jstr "u"),
      ("department", Json.jstr "Unknown Department")].lookup "localUnitId" =
      some (.jstr "u")) ∧
    ([("titleOfPublication", Json.jobj []), ("authorsOfThePublication", Json.jobj []),
      ("yearOfPublication", Json.jobj []), ("localUnitId", Json.jstr "u"),
      ("department", Json.jstr "Unknown Department")].lookup "department" =
      some (.jstr ((UNIT_ID_TO_NAME.lookup "u").getD "Unknown Department"))) :=
  normalizer_output_schema (Json.jobj [("data", Json.jobj [])]) ("u") _ rfl

/-- C8 counterexample: the normalizer raises for a publication object that
lacks the top-level data field, because publication["data"] is a direct
subscript without a default. -/
theorem normalizer_missing_data_raises :
    filter_publication_data (Json.jobj []) ("u") = .error (.keyError "data") :=
  rfl

/-- C8 amended: whenever the top-level data field is present (and the
detailedPublicationInformation entry, when present, is a dictionary, since
.get on a non-dictionary raises AttributeError), normalization never raises
no matter which nested fields are missing: every nested lookup defaults to
an empty dictionary. -/
theorem normalizer_total_below_data (kvs d m : List (String × Json)) (uid : String)
    (hdata : kvs.lookup "data" = some (Json.jobj d))
    (hdpi : (d.lookup "detailedPublicationInformation").getD (Json.jobj []) = Json.jobj m) :
    filter_publication_data (Json.jobj kvs) uid = .ok
      [("titleOfPublication", (d.lookup "titleOfPublication").getD (Json.jobj [])),
       ("authorsOfThePublication", (d.lookup "authorsOfThePublication").getD (Json.jobj [])),
       ("yearOfPublication", (m.lookup "yearOfPublication").getD (Json.jobj [])),
       ("localUnitId", Json.jstr uid),
       ("department", Json.jstr ((UNIT_ID_TO_NAME.lookup uid).getD "Unknown Department"))] := by
  simp [filter_publication_data, Json.subscript, Json.getDefault, hdata, hdpi]

/-- Witness for the amended C8 at a concrete publication with every nested
field missing. -/
theorem normalizer_total_below_data_witness :
    filter_publication_data (Json.jobj [("data", Json.jobj [])]) ("w") = .ok
      [("titleOfPublication", Json.jobj []),
       ("authorsOfThePublication", Json.jobj []),
       ("yearOfPublication", Json.jobj []),
       ("localUnitId", Json.jstr "w"),
       ("department", Json.jstr "Unknown Department")] :=
  normalizer_total_below_data [("data", Json.jobj [])] [] [] ("w") rfl rfl

/-- The pagination metadata of a list response. -/
structure Meta where
  pageCount : Option Nat
  totalCount : Option Nat

/-- A parsed list response. The meta dictionary may be absent; the data
field defaults to the empty list when absent, so it is modeled by the list
itself. -/
structure ApiResponse where
  meta : Option Meta
  data : List Json

/-- Model of initial_data.get("meta", {}).get("pageCount", 0). -/
def totalPagesOf (r : ApiResponse) : Nat :=
  match r.meta with
  | none => 0
  | some m => m.pageCount.getD 0

/-- Model of the normalization list comprehension
[filter_publication_data(pub, uid) for pub in data.get("data", [])]:
records in order, with the first raised exception propagating. -/
def filterAll (uid : String) : List Json → Except PyErr (List (List (String × Json)))
  | [] => .ok []
  | pub :: rest =>
    match filter_publication_data pub uid with
    | .error e => .error e
    | .ok rec1 =>
      match filterAll uid rest with
      | .error e => .error e
      | .ok recs => .ok (rec1 :: recs)

/-- Model of the pagination while loop of fetch_all_publications: pages are
requested one by one starting at the given page; the loop runs for at most
fuel further pages (the source bounds it by total_pages). A request failure
(requests.exceptions.RequestException) breaks the loop and keeps the
records collected so far; a normalization error is not caught by the except
clause and propagates. The api argument abstracts fetch_publications, whose
query is determined by the page number (skip is (page-1)*100); its error
case stands for a transport or status failure. -/
def fetchPages (api : Nat → Except String ApiResponse) (uid : String)
    (acc : List (List (String × Json))) (page : Nat) :
    Nat → Except PyErr (List (List (String × Json)))
  | 0 => .ok acc
  | fuel + 1 =>
    match api page with
    | .error _ => .ok acc
    | .ok resp =>
      match filterAll uid resp.data with
      | .error e => .error e
      | .ok recs => fetchPages api uid (acc ++ recs) (page + 1) fuel

/-- Model of fetch_all_publications: request page 1 without any exception
handler (a failure propagates), read the page count with a default of 0,
normalize the first page, return it alone when the page count is at most 1,
and otherwise run the loop over pages 2 .. total_pages. -/
def fetch_all_publications (api : Nat → Except String ApiResponse) (uid : String) :
    Except PyErr (List (List (String × Json))) :=
  match api 1 with
  | .error e => .error (.requestError e)
  | .ok initial =>
    match filterAll uid initial.data with
    | .error e => .error e
    | .ok firstRecs =>
      if totalPagesOf initial ≤ 1 then .ok firstRecs
      else fetchPages api uid firstRecs 2 (totalPagesOf initial - 1)

theorem fetchPages_stops_at_failure (api : Nat → Except String ApiResponse)
    (uid : String) (resps : Nat → ApiResponse)
    (recs : Nat → List (List (String × Json))) (k : Nat) (msg : String)
    (hfail : api k = .error msg)
    (hok : ∀ j, 2 ≤ j → j < k → api j = .ok (resps j))
    (hfilter : ∀ j, 2 ≤ j → j < k →
      filterAll uid (resps j).data = .ok (recs j)) :
    ∀ (fuel page : Nat) (acc : List (List (String × Json))),
      2 ≤ page → page ≤ k → k < page + fuel →
      fetchPages api uid acc page fuel =
        .ok (acc ++ (List.range' page (k - page)).flatMap recs) := by
  intro fuel
  induction fuel with
  | zero => intro page acc _ h1 h2; omega
  | succ fuel ih =>
    intro page acc hp2 hpk hlt
    by_cases hpage : page = k
    · subst hpage
      simp [fetchPages, hfail, Nat.sub_self]
    · have hplt : page < k := lt_of_le_of_ne hpk hpage
      have hrec := ih (page + 1) (acc ++ recs page) (by omega) (by omega) (by omega)
      rw [show fetchPages api uid acc page (fuel + 1) =
          fetchPages api uid (acc ++ recs page) (page + 1) fuel from by
        simp [fetchPages, hok page hp2 hplt, hfilter page hp2 hplt], hrec]
      obtain ⟨m, hm⟩ : ∃ m, k - page = m + 1 := ⟨k - page - 1, by omega⟩
      rw [hm, List.range'_succ, List.flatMap_cons, List.append_assoc,
        show k - (page + 1) = m from by omega]

/-- Full evaluation of a fetch run whose page k fails while all earlier
pages succeed: the result is the concatenation of the normalized records of
pages 1 through k-1. -/
theorem fetch_all_partial_eval (api : Nat → Except String ApiResponse)
    (uid : String) (resps : Nat → ApiResponse)
    (recs : Nat → List (List (String × Json))) (N k : Nat) (msg : String)
    (hk1 : 1 < k) (hkN : k ≤ N)
    (h1 : api 1 = .ok (resps 1))
    (hN : totalPagesOf (resps 1) = N)
    (hok : ∀ j, 2 ≤ j → j < k → api j = .ok (resps j))
    (hfail : api k = .error msg)
    (hfilter : ∀ j, 1 ≤ j → j < k →
      filterAll uid (resps j).data = .ok (recs j)) :
    fetch_all_publications api uid = .ok ((List.range' 1 (k - 1)).flatMap recs) := by
  have hN2 : 2 ≤ N := by omega
  have hfirst := hfilter 1 (le_refl 1) hk1
  rw [show fetch_all_publications api uid =
      fetchPages api uid (recs 1) 2 (N - 1) from by
    simp [fetch_all_publications, h1, hfirst, hN, show ¬ N ≤ 1 from by omega]]
  rw [fetchPages_stops_at_failure api uid resps recs k msg hfail hok
    (fun j h2 hk => hfilter j (by omega) hk) (N - 1) 2 (recs 1)
    (le_refl 2) (by omega) (by omega)]
  obtain ⟨m, hm⟩ : ∃ m, k - 1 = m + 1 := ⟨k - 2, by omega⟩
  rw [hm, List.range'_succ, List.flatMap_cons,
    show k - 2 = m from by omega]

/-- C2. When the page count is N > 1 and the request for page k
(1 < k ≤ N) fails while pages below k succeed and normalize, the fetcher
returns exactly the records of pages 1 through k-1 as a successful partial
result, and its outcome does not depend on the behavior of any page beyond
k, so no later page is attempted. -/
theorem fetch_partial_page_failure (api : Nat → Except String ApiResponse)
    (uid : String) (resps : Nat → ApiResponse)
    (recs : Nat → List (List (String × Json))) (N k : Nat) (msg : String)
    (hk1 : 1 < k) (hkN : k ≤ N)
    (h1 : api 1 = .ok (resps 1))
    (hN : totalPagesOf (resps 1) = N)
    (hok : ∀ j, 2 ≤ j → j < k → api j = .ok (resps j))
    (hfail : api k = .error msg)
    (hfilter : ∀ j, 1 ≤ j → j < k →
      filterAll uid (resps j).data = .ok (recs j)) :
    fetch_all_publications api uid = .ok ((List.range' 1 (k - 1)).flatMap recs) ∧
    ∀ api2 : Nat → Except String ApiResponse, (∀ j, j ≤ k → api2 j = api j) →
      fetch_all_publications api2 uid = .ok ((List.range' 1 (k - 1)).flatMap recs) := by
  constructor
  · exact fetch_all_partial_eval api uid resps recs N k msg hk1 hkN h1 hN hok hfail hfilter
  · intro api2 hagree
    refine fetch_all_partial_eval api2 uid resps recs N k msg hk1 hkN ?_ hN ?_ ?_ hfilter
    · rw [hagree 1 (by omega)]; exact h1
    · intro j h2 hj
      rw [hagree j (by omega)]
      exact hok j h2 hj
    · rw [hagree k (le_refl k)]
      exact hfail

/-- A concrete source reporting three pages whose second page fails. -/
def apiW : Nat → Except String ApiResponse := fun n =>
  if n = 1 then .ok ⟨some ⟨some 3, some 250⟩, [Json.jobj [("data", Json.jobj [])]]⟩
  else .error "boom"

/-- The pages of apiW, as a total family. -/
def respsW : Nat → ApiResponse := fun _ =>
  ⟨some ⟨some 3, some 250⟩, [Json.jobj [("data", Json.jobj [])]]⟩

/-- The normalized records of each page of apiW. -/
def recsW : Nat → List (List (String × Json)) := fun _ =>
  [[("titleOfPublication", Json.jobj []),
    ("authorsOfThePublication", Json.jobj []),
    ("yearOfPublication", Json.jobj []),
    ("localUnitId", Json.jstr "u"),
    ("department", Json.jstr "Unknown Department")]]

/-- Witness for C2 at the concrete source apiW with k = 2 and N = 3. -/
theorem fetch_partial_page_failure_witness :
    fetch_all_publications apiW "u" = .ok ((List.range' 1 1).flatMap recsW) :=
  (fetch_partial_page_failure apiW "u" respsW recsW 3 2 "boom"
    (by decide) (by decide) rfl rfl
    (fun j h2 hlt => absurd (Nat.lt_of_le_of_lt h2 hlt) (lt_irrefl 2))
    rfl
    (fun j h1 hlt => by
      have hj : j = 1 := by omega
      subst hj
      rfl)).1

/-- C6. A transport or status failure of the first page request propagates
to the caller as a hard error; no partial result is returned. -/
theorem fetch_first_page_failure (api : Nat → Except String ApiResponse)
    (uid msg : String) (hfail : api 1 = .error msg) :
    fetch_all_publications api uid = .error (.requestError msg) := by
  simp [fetch_all_publications, hfail]

/-- Witness for C6 at a concrete always-failing source. -/
theorem fetch_first_page_failure_witness :
    fetch_all_publications (fun _ => .error "down") ("u") =
      .error (.requestError "down") :=
  fetch_first_page_failure (fun _ => .error "down") ("u") ("down") rfl

/-- C10. When the first page response lacks the meta dictionary, or has a
meta dictionary without a pageCount entry, the page count defaults to 0,
the fetcher returns only the normalized records of the first page without
raising, and the outcome does not depend on any page other than page 1, so
no further request is issued. -/
theorem fetch_missing_meta_single_page (api : Nat → Except String ApiResponse)
    (uid : String) (resp : ApiResponse) (recs : List (List (String × Json)))
    (h1 : api 1 = .ok resp)
    (hmeta : resp.meta = none ∨ ∃ tc, resp.meta = some ⟨none, tc⟩)
    (hfilter : filterAll uid resp.data = .ok recs) :
    totalPagesOf resp = 0 ∧
    fetch_all_publications api uid = .ok recs ∧
    ∀ api2 : Nat → Except String ApiResponse, api2 1 = .ok resp →
      fetch_all_publications api2 uid = .ok recs := by
  have htp : totalPagesOf resp = 0 := by
    rcases hmeta with h | ⟨tc, h⟩ <;> simp [totalPagesOf, h]
  have main : ∀ api2 : Nat → Except String ApiResponse, api2 1 = .ok resp →
      fetch_all_publications api2 uid = .ok recs := by
    intro api2 h2
    simp [fetch_all_publications, h2, hfilter, htp]
  exact ⟨htp, main api h1, main⟩

/-- Witness for C10 at a concrete source without pagination metadata. -/
theorem fetch_missing_meta_single_page_witness :
    totalPagesOf (ApiResponse.mk none []) = 0 ∧
    fetch_all_publications (fun _ => .ok (ApiResponse.mk none [])) ("u") = .ok [] ∧
    ∀ api2 : Nat → Except String ApiResponse, api2 1 = .ok (ApiResponse.mk none []) →
      fetch_all_publications api2 ("u") = .ok [] :=
  fetch_missing_meta_single_page (fun _ => .ok (ApiResponse.mk none [])) ("u")
    (ApiResponse.mk none []) [] rfl (Or.inl rfl) rfl
